import Mathlib

/-!
Verification of the NavBar active-route-matching core of
matrix-authentication-service's frontend.

The repository slice under `src/` contains only the story fixture
`src/frontend/src/components/NavBar/NavBar.stories.tsx`; the `NavBar` and
`NavItem` implementations themselves are not part of the slice, so their
behaviour is modelled from the specification (spec.md §3, §4, §7): segment-wise
path-prefix matching, longest-match selection with declared-order tie-break,
and `InvalidConfiguration` rejection at construction.  The fixture itself
(entry list, render tree) is embedded directly from the source file.
-/

set_option autoImplicit false

/-- Modelled from the spec: `NavItem.tsx` / `NavBar.tsx` are missing from the
slice.  A navigation entry (spec §3 `NavEntry`): a target path and a label. -/
structure NavEntry where
  targetPath : String
  label : String
deriving DecidableEq, Repr

/-- Split a character list on the slash character, accumulating the current
segment in reverse.  Helper for `pathSegments`. -/
def segsAux : List Char → List Char → List (List Char)
  | [], acc => [acc.reverse]
  | c :: cs, acc =>
    if c = '/' then acc.reverse :: segsAux cs [] else segsAux cs (c :: acc)

/-- Modelled from the spec: path segments of a location or target path — the
non-empty components between slashes (spec glossary "Prefix match": a
segment-wise comparison). -/
def pathSegments (p : String) : List (List Char) :=
  (segsAux p.data []).filter (fun s => !s.isEmpty)

/-- Modelled from the spec: the matching predicate of spec §4.2 — the current
location equals the target path, or the target path's (non-empty) segment
sequence is a leading segment sequence of the location's segments.  The
non-emptiness condition realises the spec's `/unknown` scenario (§8): the root
target `/` matches only the location `/` itself. -/
def segMatches (target loc : String) : Bool :=
  loc == target ||
    (!(pathSegments target).isEmpty &&
      (pathSegments target).isPrefixOf (pathSegments loc))

/-- Modelled from the spec: the length of the matched path for an entry (number
of matched segments), `none` when the entry does not match (spec §4.2 "the
longest matched path"). -/
def matchedLen (target loc : String) : Option Nat :=
  if segMatches target loc then some (pathSegments target).length else none

/-- Modelled from the spec: scan a list of per-entry scores (index `i` is the
position of the head), returning the index and score of the first entry
achieving the maximal score — a later entry replaces the current best only when
its score is strictly greater (spec §4.2: longest match wins, ties go to the
first in declared order). -/
def bestIndexAux : Nat → List (Option Nat) → Option (Nat × Nat)
  | _, [] => none
  | i, none :: rest => bestIndexAux (i + 1) rest
  | i, some n :: rest =>
    match bestIndexAux (i + 1) rest with
    | none => some (i, n)
    | some (j, m) => if m > n then some (j, m) else some (i, n)

/-- Modelled from the spec: `activeIndex` of spec §3 — the index of the active
entry, if any: the first entry among those with the longest matched path. -/
def activeIndex (entries : List NavEntry) (loc : String) : Option Nat :=
  (bestIndexAux 0 (entries.map (fun e => matchedLen e.targetPath loc))).map
    Prod.fst

/-- Modelled from the spec: the active entry itself, obtained by looking up
`activeIndex` in the entry sequence. -/
def activeEntry (entries : List NavEntry) (loc : String) : Option NavEntry :=
  (activeIndex entries loc).bind (fun i => entries[i]?)

/-- Modelled from the spec: per-entry derived `isActive` flag (spec §3): entry
`i` is active exactly when `activeIndex` designates it. -/
def isActive (entries : List NavEntry) (loc : String) (i : Nat) : Bool :=
  activeIndex entries loc == some i

/-- The fixture entry sequence of `NavBar.stories.tsx` (lines 28–31): a nav
item targeting `/` labelled "Profile", then one targeting `/sessions` labelled
"Sessions". -/
def storyEntries : List NavEntry :=
  [⟨"/", "Profile"⟩, ⟨"/sessions", "Sessions"⟩]

/-- An element found by optional indexing is a member of the list. -/
theorem mem_of_getElem_eq_some {α : Type} {l : List α} {i : Nat} {a : α}
    (h : l[i]? = some a) : a ∈ l := by
  obtain ⟨hi, hv⟩ := List.getElem?_eq_some.mp h
  exact hv ▸ List.getElem_mem hi

/-- `bestIndexAux` returns `none` exactly when every score in the list is
`none` (no entry matches). -/
theorem bestIndexAux_none_iff (scores : List (Option Nat)) :
    ∀ i, bestIndexAux i scores = none ↔ ∀ s ∈ scores, s = none := by
  induction scores with
  | nil => intro i; simp [bestIndexAux]
  | cons s rest ih =>
    intro i
    cases s with
    | none => simpa [bestIndexAux] using ih (i + 1)
    | some n =>
      simp only [bestIndexAux]
      cases h : bestIndexAux (i + 1) rest with
      | none => simp
      | some p =>
        obtain ⟨j, m⟩ := p
        by_cases hmn : m > n <;> simp [hmn]

/-- A successful `bestIndexAux` result points at an actual score in the list:
the returned index is the base index plus the position of that score. -/
theorem bestIndexAux_mem (scores : List (Option Nat)) :
    ∀ i j n, bestIndexAux i scores = some (j, n) →
      ∃ k, scores[k]? = some (some n) ∧ j = i + k := by
  induction scores with
  | nil => intro i j n h; simp [bestIndexAux] at h
  | cons s rest ih =>
    intro i j n h
    cases s with
    | none =>
      simp only [bestIndexAux] at h
      obtain ⟨k, hk, hj⟩ := ih (i + 1) j n h
      exact ⟨k + 1, by simpa using hk, by omega⟩
    | some v =>
      simp only [bestIndexAux] at h
      cases hr : bestIndexAux (i + 1) rest with
      | none =>
        rw [hr] at h
        simp only [Option.some.injEq, Prod.mk.injEq] at h
        obtain ⟨hj, hn⟩ := h
        exact ⟨0, by simp [hn], by omega⟩
      | some p =>
        obtain ⟨j', m⟩ := p
        rw [hr] at h
        by_cases hmv : m > v
        · simp only [hmv, if_pos, Option.some.injEq, Prod.mk.injEq] at h
          obtain ⟨hj, hn⟩ := h
          obtain ⟨k, hk, hjk⟩ := ih (i + 1) j' m hr
          exact ⟨k + 1, by simpa [hn] using hk, by omega⟩
        · simp only [hmv, if_neg, if_false, Option.some.injEq, Prod.mk.injEq] at h
          obtain ⟨hj, hn⟩ := h
          exact ⟨0, by simp [hn], by omega⟩

/-- The score returned by `bestIndexAux` is maximal among all scores present in
the list. -/
theorem bestIndexAux_max (scores : List (Option Nat)) :
    ∀ i j n, bestIndexAux i scores = some (j, n) →
      ∀ (k m : Nat), scores[k]? = some (some m) → m ≤ n := by
  induction scores with
  | nil => intro i j n h; simp [bestIndexAux] at h
  | cons s rest ih =>
    intro i j n h k m hk
    cases s with
    | none =>
      simp only [bestIndexAux] at h
      cases k with
      | zero => simp at hk
      | succ k' => exact ih (i + 1) j n h k' m (by simpa using hk)
    | some v =>
      simp only [bestIndexAux] at h
      cases hr : bestIndexAux (i + 1) rest with
      | none =>
        rw [hr] at h
        simp only [Option.some.injEq, Prod.mk.injEq] at h
        obtain ⟨hj, hn⟩ := h
        cases k with
        | zero =>
          simp only [List.getElem?_cons_zero, Option.some.injEq] at hk
          omega
        | succ k' =>
          exfalso
          have hall := (bestIndexAux_none_iff rest (i + 1)).mp hr
          have hmem : some m ∈ rest := mem_of_getElem_eq_some (by simpa using hk)
          exact Option.noConfusion (hall _ hmem)
      | some p =>
        obtain ⟨j', m'⟩ := p
        rw [hr] at h
        by_cases hmv : m' > v
        · simp only [hmv, if_pos, Option.some.injEq, Prod.mk.injEq] at h
          obtain ⟨hj, hn⟩ := h
          cases k with
          | zero =>
            simp only [List.getElem?_cons_zero, Option.some.injEq] at hk
            omega
          | succ k' => exact hn ▸ ih (i + 1) j' m' hr k' m (by simpa using hk)
        · simp only [hmv, if_neg, if_false, Option.some.injEq, Prod.mk.injEq] at h
          obtain ⟨hj, hn⟩ := h
          cases k with
          | zero =>
            simp only [List.getElem?_cons_zero, Option.some.injEq] at hk
            omega
          | succ k' =>
            have := ih (i + 1) j' m' hr k' m (by simpa using hk)
            omega

/-- Declared-order tie-break: among scores equal to the maximal one,
`bestIndexAux` returns the position of the earliest. -/
theorem bestIndexAux_first (scores : List (Option Nat)) :
    ∀ i j n, bestIndexAux i scores = some (j, n) →
      ∀ k m, scores[k]? = some (some m) → m = n → j ≤ i + k := by
  induction scores with
  | nil => intro i j n h; simp [bestIndexAux] at h
  | cons s rest ih =>
    intro i j n h k m hk hmn
    cases s with
    | none =>
      simp only [bestIndexAux] at h
      cases k with
      | zero => simp at hk
      | succ k' =>
        have := ih (i + 1) j n h k' m (by simpa using hk) hmn
        omega
    | some v =>
      simp only [bestIndexAux] at h
      cases hr : bestIndexAux (i + 1) rest with
      | none =>
        rw [hr] at h
        simp only [Option.some.injEq, Prod.mk.injEq] at h
        omega
      | some p =>
        obtain ⟨j', m'⟩ := p
        rw [hr] at h
        by_cases hmv : m' > v
        · simp only [hmv, if_pos, Option.some.injEq, Prod.mk.injEq] at h
          obtain ⟨hj, hn⟩ := h
          cases k with
          | zero =>
            simp only [List.getElem?_cons_zero, Option.some.injEq] at hk
            omega
          | succ k' =>
            have := ih (i + 1) j' m' hr k' m (by simpa using hk) (by omega)
            omega
        · simp only [hmv, if_neg, if_false, Option.some.injEq, Prod.mk.injEq] at h
          omega

/-- `matchedLen` is `some n` exactly when the entry matches and `n` is the
number of segments of its target path. -/
theorem matchedLen_eq_some_iff (target loc : String) (n : Nat) :
    matchedLen target loc = some n ↔
      segMatches target loc = true ∧ n = (pathSegments target).length := by
  by_cases h : segMatches target loc = true <;>
    simp [matchedLen, h, eq_comm]

/-- A non-matching entry has no matched length. -/
theorem matchedLen_eq_none (target loc : String)
    (h : segMatches target loc = false) : matchedLen target loc = none := by
  simp [matchedLen, h]

/-- C1: the active entry computed by `activeIndex`, if any, is one whose
`targetPath` has the longest matched length of `loc` among all entries (no
shorter match is selected over a longer one); and when exactly one entry
matches the location, that entry is the active one. -/
theorem activeIndex_longest_match (entries : List NavEntry) (loc : String) :
    (∀ i, activeIndex entries loc = some i →
      ∃ e n, entries[i]? = some e ∧ matchedLen e.targetPath loc = some n ∧
        ∀ (j : Nat) (e' : NavEntry) (n' : Nat), entries[j]? = some e' →
          matchedLen e'.targetPath loc = some n' → n' ≤ n) ∧
    (∀ (i : Nat) (e : NavEntry), entries[i]? = some e →
      segMatches e.targetPath loc = true →
      (∀ (j : Nat) (e' : NavEntry), entries[j]? = some e' →
        segMatches e'.targetPath loc = true → j = i) →
      activeIndex entries loc = some i) := by
  constructor
  · intro i hai
    unfold activeIndex at hai
    cases hb : bestIndexAux 0 (entries.map fun e => matchedLen e.targetPath loc) with
    | none => rw [hb] at hai; simp at hai
    | some p =>
      obtain ⟨j, n⟩ := p
      rw [hb] at hai
      obtain rfl : j = i := by simpa using hai
      obtain ⟨k, hk, hjk⟩ := bestIndexAux_mem _ 0 j n hb
      rw [List.getElem?_map] at hk
      cases he : entries[k]? with
      | none => rw [he] at hk; simp at hk
      | some e =>
        rw [he] at hk
        simp only [Option.map_some', Option.some.injEq] at hk
        refine ⟨e, n, ?_, hk, ?_⟩
        · rw [← he]; congr 1; omega
        · intro j' e' n' he' hm'
          refine bestIndexAux_max _ 0 j n hb j' n' ?_
          rw [List.getElem?_map, he']
          simp [hm']
  · intro i e he hm huniq
    unfold activeIndex
    cases hb : bestIndexAux 0 (entries.map fun e => matchedLen e.targetPath loc) with
    | none =>
      exfalso
      have hall := (bestIndexAux_none_iff _ 0).mp hb
      have hmem : matchedLen e.targetPath loc ∈
          entries.map (fun e => matchedLen e.targetPath loc) :=
        List.mem_map_of_mem _ (mem_of_getElem_eq_some he)
      have hnone := hall _ hmem
      rw [(matchedLen_eq_some_iff e.targetPath loc _).mpr ⟨hm, rfl⟩] at hnone
      exact Option.noConfusion hnone
    | some p =>
      obtain ⟨j, n⟩ := p
      obtain ⟨k, hk, hjk⟩ := bestIndexAux_mem _ 0 j n hb
      rw [List.getElem?_map] at hk
      cases he' : entries[k]? with
      | none => rw [he'] at hk; simp at hk
      | some e' =>
        rw [he'] at hk
        simp only [Option.map_some', Option.some.injEq] at hk
        have hmat' : segMatches e'.targetPath loc = true :=
          ((matchedLen_eq_some_iff _ _ _).mp hk).1
        have hki : k = i := huniq k e' he' hmat'
        simp only [Option.map_some']
        congr 1
        omega

/-- Witness for C1: in the story fixture at location `/sessions`, exactly the
second entry matches, and it is the active one. -/
theorem activeIndex_longest_match_witness :
    activeIndex storyEntries "/sessions" = some 1 :=
  (activeIndex_longest_match storyEntries "/sessions").2 1 ⟨"/sessions", "Sessions"⟩
    (by decide) (by decide)
    (by
      intro j e' hj hm
      match j with
      | 0 =>
        simp only [storyEntries, List.getElem?_cons_zero, Option.some.injEq] at hj
        rw [← hj] at hm
        exact absurd hm (by decide)
      | 1 => rfl
      | (k + 2) => simp [storyEntries] at hj)

/-- C2: at most one entry is marked active: any two indices whose derived
`isActive` flag is set coincide. -/
theorem at_most_one_active (entries : List NavEntry) (loc : String) :
    ∀ (i j : Nat), isActive entries loc i = true →
      isActive entries loc j = true → i = j := by
  intro i j hi hj
  have hi' : activeIndex entries loc = some i := by simpa [isActive] using hi
  have hj' : activeIndex entries loc = some j := by simpa [isActive] using hj
  rw [hi'] at hj'
  exact (Option.some.injEq _ _ ▸ hj' : i = j)

/-- Witness for C2: applied to the story fixture at location `/`, where index 0
is active. -/
theorem at_most_one_active_witness : (0 : Nat) = 0 :=
  at_most_one_active storyEntries "/" 0 0 (by decide) (by decide)

/-- The boolean list-prefix test succeeds exactly when the second list is the
first followed by some tail. -/
theorem isPrefixOf_iff_append {α : Type} [BEq α] [LawfulBEq α] :
    ∀ (l₁ l₂ : List α), l₁.isPrefixOf l₂ = true ↔ ∃ t, l₂ = l₁ ++ t := by
  intro l₁
  induction l₁ with
  | nil => intro l₂; simp [List.isPrefixOf]
  | cons a as ih =>
    intro l₂
    cases l₂ with
    | nil => simp [List.isPrefixOf]
    | cons b bs =>
      simp only [List.isPrefixOf, Bool.and_eq_true, beq_iff_eq]
      constructor
      · rintro ⟨hab, hp⟩
        obtain ⟨t, ht⟩ := (ih bs).mp hp
        exact ⟨t, by simp [hab, ht]⟩
      · rintro ⟨t, ht⟩
        simp only [List.cons_append, List.cons.injEq] at ht
        obtain ⟨hb, hbs⟩ := ht
        exact ⟨hb.symm, (ih bs).mpr ⟨t, hbs⟩⟩

/-- C3: the matching predicate holds exactly when the location equals the
target path or the target's (non-empty) segment sequence is a leading segment
sequence of the location's segments; in particular `/sessions` does not match
`/session-foo`, and the comparison is segment-wise, not raw-string prefix
(`/session` is a raw-string prefix of `/session-foo` yet does not match it). -/
theorem segMatches_characterisation :
    (∀ target loc, segMatches target loc = true ↔
      (loc = target ∨ (pathSegments target ≠ [] ∧
        ∃ rest, pathSegments loc = pathSegments target ++ rest))) ∧
    segMatches "/sessions" "/session-foo" = false ∧
    ("/session".data).isPrefixOf ("/session-foo".data) = true ∧
    segMatches "/session" "/session-foo" = false := by
  refine ⟨?_, by decide, by decide, by decide⟩
  intro target loc
  simp only [segMatches, Bool.or_eq_true, Bool.and_eq_true, beq_iff_eq,
    Bool.not_eq_true']
  constructor
  · rintro (h | ⟨hne, hp⟩)
    · exact Or.inl h
    · refine Or.inr ⟨?_, (isPrefixOf_iff_append _ _).mp hp⟩
      intro hnil
      rw [hnil] at hne
      exact Bool.noConfusion hne
  · rintro (h | ⟨hne, t, ht⟩)
    · exact Or.inl h
    · refine Or.inr ⟨?_, (isPrefixOf_iff_append _ _).mpr ⟨t, ht⟩⟩
      cases hps : pathSegments target with
      | nil => exact absurd hps hne
      | cons x xs => rfl

/-- Witness for C3: the characterisation applied at target `/sessions` and
location `/sessions/123` (segment-wise prefix). -/
theorem segMatches_characterisation_witness :
    segMatches "/sessions" "/sessions/123" = true :=
  (segMatches_characterisation.1 "/sessions" "/sessions/123").mpr
    (Or.inr ⟨by decide, ⟨[['1', '2', '3']], by decide⟩⟩)

/-- C4: when some entry matches, the computation does not fail (it yields an
active index), and the chosen index is no later than any entry tied for the
same matched length — so among duplicates of the longest-matching target path,
the first declared wins. -/
theorem tie_break_first_declared (entries : List NavEntry) (loc : String) :
    ((∃ (j : Nat) (e' : NavEntry), entries[j]? = some e' ∧
        segMatches e'.targetPath loc = true) →
      ∃ i, activeIndex entries loc = some i) ∧
    (∀ (i j : Nat) (e e' : NavEntry), activeIndex entries loc = some i →
      entries[i]? = some e → entries[j]? = some e' →
      matchedLen e'.targetPath loc = matchedLen e.targetPath loc →
      i ≤ j) := by
  constructor
  · rintro ⟨j, e', hj, hm⟩
    unfold activeIndex
    cases hb : bestIndexAux 0 (entries.map fun e => matchedLen e.targetPath loc) with
    | none =>
      exfalso
      have hall := (bestIndexAux_none_iff _ 0).mp hb
      have hmem : matchedLen e'.targetPath loc ∈
          entries.map (fun e => matchedLen e.targetPath loc) :=
        List.mem_map_of_mem _ (mem_of_getElem_eq_some hj)
      have hnone := hall _ hmem
      rw [(matchedLen_eq_some_iff e'.targetPath loc _).mpr ⟨hm, rfl⟩] at hnone
      exact Option.noConfusion hnone
    | some p => exact ⟨p.1, by simp⟩
  · intro i j e e' hai he he' htie
    unfold activeIndex at hai
    cases hb : bestIndexAux 0 (entries.map fun e => matchedLen e.targetPath loc) with
    | none => rw [hb] at hai; simp at hai
    | some p =>
      obtain ⟨j₀, n⟩ := p
      rw [hb] at hai
      obtain rfl : j₀ = i := by simpa using hai
      obtain ⟨k, hk, hjk⟩ := bestIndexAux_mem _ 0 j₀ n hb
      have hki : k = j₀ := by omega
      subst hki
      rw [List.getElem?_map, he] at hk
      simp only [Option.map_some', Option.some.injEq] at hk
      have hj' : (entries.map fun e => matchedLen e.targetPath loc)[j]? =
          some (some n) := by
        rw [List.getElem?_map, he']
        simp [htie, hk]
      have := bestIndexAux_first _ 0 k n hb j n hj' rfl
      omega

/-- Witness for C4: two entries with the identical target path `/sessions`
both matching the location; the computation succeeds and index 0 precedes
index 1. -/
theorem tie_break_first_declared_witness :
    (∃ i, activeIndex [⟨"/sessions", "A"⟩, ⟨"/sessions", "B"⟩] "/sessions" =
      some i) ∧ (0 : Nat) ≤ 1 :=
  ⟨(tie_break_first_declared [⟨"/sessions", "A"⟩, ⟨"/sessions", "B"⟩]
      "/sessions").1 ⟨0, ⟨"/sessions", "A"⟩, by decide, by decide⟩,
   (tie_break_first_declared [⟨"/sessions", "A"⟩, ⟨"/sessions", "B"⟩]
      "/sessions").2 0 1 ⟨"/sessions", "A"⟩ ⟨"/sessions", "B"⟩
      (by decide) (by decide) (by decide) (by decide)⟩

/-- C5: the story fixture scenario of spec §8: location `/` activates
"Profile", location `/sessions` activates "Sessions", location `/unknown`
activates nothing. -/
theorem story_fixture_scenario :
    activeEntry storyEntries "/" = some ⟨"/", "Profile"⟩ ∧
    activeEntry storyEntries "/sessions" = some ⟨"/sessions", "Sessions"⟩ ∧
    activeEntry storyEntries "/unknown" = none := by
  exact ⟨by decide, by decide, by decide⟩

/-- C6: the active-state computation is a pure function of the pair
`(entries, currentLocation)`: identical inputs yield identical outputs, both
for the index and for the entry (the shallow embedding is a total Lean
function, hence side-effect-free). -/
theorem activeIndex_pure (entries entries' : List NavEntry)
    (loc loc' : String) :
    entries = entries' → loc = loc' →
      activeIndex entries loc = activeIndex entries' loc' ∧
      activeEntry entries loc = activeEntry entries' loc' := by
  rintro rfl rfl
  exact ⟨rfl, rfl⟩

/-- Witness for C6: recomputation on the story fixture. -/
theorem activeIndex_pure_witness :
    activeIndex storyEntries "/" = activeIndex storyEntries "/" ∧
    activeEntry storyEntries "/" = activeEntry storyEntries "/" :=
  activeIndex_pure storyEntries storyEntries "/" "/" rfl rfl

/-- C7: when no entry matches the location, the computation returns the
no-active-entry result `none` (a total function: no error is signalled). -/
theorem no_match_no_active (entries : List NavEntry) (loc : String) :
    (∀ e ∈ entries, segMatches e.targetPath loc = false) →
      activeIndex entries loc = none := by
  intro h
  unfold activeIndex
  have hb : bestIndexAux 0 (entries.map fun e => matchedLen e.targetPath loc) =
      none := by
    refine (bestIndexAux_none_iff _ 0).mpr ?_
    intro s hs
    obtain ⟨e, he, rfl⟩ := List.mem_map.mp hs
    exact matchedLen_eq_none _ _ (h e he)
  rw [hb]
  rfl

/-- Witness for C7: the story fixture at location `/unknown`, which no entry
matches. -/
theorem no_match_no_active_witness :
    activeIndex storyEntries "/unknown" = none :=
  no_match_no_active storyEntries "/unknown" (by decide)

/-- Modelled from the spec: a raw `NavItem` configuration before construction
-time validation (spec §4.1): the target path may be missing, the renderable
content may be missing. -/
structure NavItemConfig where
  targetPath : Option String
  content : Option String
deriving DecidableEq, Repr

/-- Modelled from the spec: the configuration error surfaced at construction
(spec §4.1, §7 `InvalidConfiguration`), carrying a message. -/
inductive ConfigError where
  | InvalidConfiguration : String → ConfigError
deriving DecidableEq, Repr

/-- Modelled from the spec: construction of a single `NavItem` (spec §4.1,
§7): a missing or empty `targetPath`, or non-renderable (missing) content, is
rejected with `InvalidConfiguration`; otherwise the entry is built. -/
def mkNavItem (cfg : NavItemConfig) : Except ConfigError NavEntry :=
  match cfg.targetPath with
  | none => Except.error (ConfigError.InvalidConfiguration "missing targetPath")
  | some p =>
    if p = "" then
      Except.error (ConfigError.InvalidConfiguration "empty targetPath")
    else
      match cfg.content with
      | none =>
        Except.error (ConfigError.InvalidConfiguration "non-renderable content")
      | some c => Except.ok ⟨p, c⟩

/-- Modelled from the spec: construction of the `NavBar` composition from its
item configurations (spec §4.2, §7): the first configuration error is
surfaced to the caller. -/
def mkNavBar : List NavItemConfig → Except ConfigError (List NavEntry)
  | [] => Except.ok []
  | c :: cs =>
    match mkNavItem c with
    | Except.error e => Except.error e
    | Except.ok entry =>
      match mkNavBar cs with
      | Except.error e => Except.error e
      | Except.ok rest => Except.ok (entry :: rest)

/-- A configuration with a missing or empty target path is rejected by
`mkNavItem` with an `InvalidConfiguration` error. -/
theorem mkNavItem_invalid (cfg : NavItemConfig)
    (h : cfg.targetPath = none ∨ cfg.targetPath = some "") :
    ∃ msg, mkNavItem cfg =
      Except.error (ConfigError.InvalidConfiguration msg) := by
  rcases h with h | h
  · exact ⟨"missing targetPath", by simp [mkNavItem, h]⟩
  · exact ⟨"empty targetPath", by simp [mkNavItem, h]⟩

/-- C8: a `NavItem` configuration with a missing or empty `targetPath` makes
construction fail with `InvalidConfiguration` — both for the item itself and
for any composition containing it — while a non-empty target path together
with renderable content constructs successfully. -/
theorem invalid_configuration_rejection (cfg : NavItemConfig) :
    ((cfg.targetPath = none ∨ cfg.targetPath = some "") →
      ∃ msg, mkNavItem cfg =
        Except.error (ConfigError.InvalidConfiguration msg)) ∧
    (∀ (p c : String), cfg.targetPath = some p → p ≠ "" →
      cfg.content = some c → mkNavItem cfg = Except.ok ⟨p, c⟩) ∧
    (∀ cfgs, cfg ∈ cfgs → (cfg.targetPath = none ∨ cfg.targetPath = some "") →
      ∃ msg, mkNavBar cfgs =
        Except.error (ConfigError.InvalidConfiguration msg)) := by
  refine ⟨mkNavItem_invalid cfg, ?_, ?_⟩
  · intro p c hp hpne hc
    simp [mkNavItem, hp, hpne, hc]
  · intro cfgs
    induction cfgs with
    | nil => intro h; simp at h
    | cons c cs ih =>
      intro hmem hbad
      rcases List.mem_cons.mp hmem with rfl | hmem'
      · obtain ⟨msg, hmsg⟩ := mkNavItem_invalid cfg hbad
        exact ⟨msg, by simp [mkNavBar, hmsg]⟩
      · obtain ⟨msg, hmsg⟩ := ih hmem' hbad
        cases hc : mkNavItem c with
        | error e =>
          cases e with
          | InvalidConfiguration m => exact ⟨m, by simp [mkNavBar, hc]⟩
        | ok entry => exact ⟨msg, by simp [mkNavBar, hc, hmsg]⟩

/-- Witness for C8: an empty target path is rejected, a well-formed
configuration constructs, and a composition containing a missing target path
is rejected. -/
theorem invalid_configuration_rejection_witness :
    (∃ msg, mkNavItem ⟨some "", some "Profile"⟩ =
      Except.error (ConfigError.InvalidConfiguration msg)) ∧
    mkNavItem ⟨some "/", some "Profile"⟩ = Except.ok ⟨"/", "Profile"⟩ ∧
    (∃ msg, mkNavBar [⟨some "/", some "Profile"⟩, ⟨none, some "X"⟩] =
      Except.error (ConfigError.InvalidConfiguration msg)) :=
  ⟨(invalid_configuration_rejection ⟨some "", some "Profile"⟩).1 (Or.inr rfl),
   (invalid_configuration_rejection ⟨some "/", some "Profile"⟩).2.1 "/"
     "Profile" rfl (by decide) rfl,
   (invalid_configuration_rejection ⟨none, some "X"⟩).2.2
     [⟨some "/", some "Profile"⟩, ⟨none, some "X"⟩] (by decide) (Or.inl rfl)⟩

/-- The `NavItem` configurations of the story fixture, from
`NavBar.stories.tsx` lines 29–30: target `/` with content "Profile", target
`/sessions` with content "Sessions". -/
def storyNavItems : List NavItemConfig :=
  [⟨some "/", some "Profile"⟩, ⟨some "/sessions", some "Sessions"⟩]

/-- C9: every fixture `NavItem` has a present, non-empty target path and
present content, so fixture construction succeeds — the
`InvalidConfiguration` rejection branch is unreachable on this input. -/
theorem story_fixture_construction_safe :
    storyNavItems.all (fun cfg =>
      cfg.targetPath.isSome && (cfg.targetPath.getD "") != "" &&
        cfg.content.isSome) = true ∧
    mkNavBar storyNavItems = Except.ok storyEntries := by
  exact ⟨by decide, rfl⟩

/-- Element trees produced by the story's render function: the mock router,
the nav bar with its children, a nav item with its target path and child
content, and text content (`NavBar.stories.tsx` lines 26–33). -/
inductive RElement where
  | text : String → RElement
  | navItem : String → RElement → RElement
  | navBar : List RElement → RElement
  | dummyRouter : RElement → RElement

/-- The story meta's render function (`NavBar.stories.tsx` lines 26–33): it
takes no data from its argument and returns a `DummyRouter` wrapping one
`NavBar` with the two `NavItem` children `/` (Profile) and `/sessions`
(Sessions), in that order. -/
def metaRender (_ : Unit) : RElement :=
  RElement.dummyRouter (RElement.navBar
    [RElement.navItem "/" (RElement.text "Profile"),
     RElement.navItem "/sessions" (RElement.text "Sessions")])

/-- C10: the fixture's render function is deterministic and constant: any two
invocations return structurally equal trees, and every invocation returns the
fixed `DummyRouter > NavBar > [NavItem "/" Profile, NavItem "/sessions"
Sessions]` tree. -/
theorem metaRender_constant :
    (∀ (a b : Unit), metaRender a = metaRender b) ∧
    ∀ (a : Unit), metaRender a =
      RElement.dummyRouter (RElement.navBar
        [RElement.navItem "/" (RElement.text "Profile"),
         RElement.navItem "/sessions" (RElement.text "Sessions")]) :=
  ⟨fun _ _ => rfl, fun _ => rfl⟩
